import Mathlib

/-!
Verification of the "2025 memory wall" interactive scene core.

The definitions below are shallow embeddings of the algorithmic core of the
source program: the progress controller, the text-layout generator, the
geometry merge helper, the finger-count mapping, the gesture-frame state
machine, and the tap/selection resolver.  Coordinates and random draws are
modelled over the rationals where the source only does field arithmetic and
comparisons, and over the reals where the source calls transcendental
functions (exp, sqrt).  Randomness is modelled by explicit oracle streams
in the interval from zero to one, matching Math.random.
-/

namespace MemoryWall

/-! ## Progress controller (animate loop, progress update) -/

/-- THREE.MathUtils.lerp: x + (y - x) * t. -/
noncomputable def lerp (x y t : ℝ) : ℝ := x + (y - x) * t

/-- One frame of the progress controller:
lerp(progress, target, 1 - exp(-3.0 * delta)), as in the animate loop. -/
noncomputable def progressUpdate (dt target p : ℝ) : ℝ :=
  lerp p target (1 - Real.exp (-(3 : ℝ) * dt))

/-- Repeated fixed-dt progress updates from a starting value. -/
noncomputable def progressIterate (dt target p0 : ℝ) : ℕ → ℝ
  | 0 => p0
  | n + 1 => progressUpdate dt target (progressIterate dt target p0 n)

/-! ## Geometry merge (mergeBufferGeometries) -/

/-- A buffer geometry, reduced to the attributes the merge loop reads:
the vertex list (position attribute, one triple per vertex) and the
optional index buffer. -/
structure BufferGeometry where
  position : List (ℚ × ℚ × ℚ)
  index : Option (List ℕ)
deriving DecidableEq, Repr

/-- Accumulator of the merge loop: output vertices, output indices,
and the running vertex offset. -/
structure MergeAcc where
  pos : List (ℚ × ℚ × ℚ)
  idx : List ℕ
  vOffset : ℕ
deriving DecidableEq, Repr

/-- One iteration of the merge loop: append the vertices, append the
(index-shifted) indices when the geometry has an index buffer, and advance
the vertex offset. -/
def mergeStep (acc : MergeAcc) (g : BufferGeometry) : MergeAcc :=
  { pos := acc.pos ++ g.position
    idx := acc.idx ++ (match g.index with
      | some ix => ix.map (fun e => e + acc.vOffset)
      | none => [])
    vOffset := acc.vOffset + g.position.length }

/-- Total index count over the inputs, as computed by the first pass of
mergeBufferGeometries (an input with no index contributes zero). -/
def totalIndexCount (gs : List BufferGeometry) : ℕ :=
  (gs.map (fun g => match g.index with
    | some ix => ix.length
    | none => 0)).sum

/-- mergeBufferGeometries: concatenate the vertex buffers in order, and
produce an index buffer (each entry shifted by the vertex offset of the
preceding geometries) exactly when the total index count is positive. -/
def mergeBufferGeometries (gs : List BufferGeometry) : BufferGeometry :=
  { position := (gs.foldl mergeStep ⟨[], [], 0⟩).pos
    index := if 0 < totalIndexCount gs
      then some (gs.foldl mergeStep ⟨[], [], 0⟩).idx
      else none }

/-- Specification-side description of the merged index buffer: the in-order
concatenation of the inputs' indices, each entry shifted by the total
vertex count of all preceding geometries. -/
def specOffsetConcat : List BufferGeometry → ℕ → List ℕ
  | [], _ => []
  | g :: gs, off =>
      (match g.index with
        | some ix => ix.map (fun e => e + off)
        | none => []) ++ specOffsetConcat gs (off + g.position.length)

/-! ## Layout generator (generateTextLayout) -/

/-- A 3D point with rational coordinates. -/
structure Vec3 where
  x : ℚ
  y : ℚ
  z : ℚ
deriving DecidableEq, Repr

/-- Scan the rasterized bitmap on a stride of 4 over a 1024 by 512 canvas,
collecting the mapped design-space coordinate of every pixel whose red
channel exceeds 100.  The bitmap is given as the flat RGBA byte array
(data), indexed exactly as the source does: (y * width + x) * 4. -/
def samplePoints (data : ℕ → ℕ) : List Vec3 :=
  (List.range 128).flatMap (fun yi =>
    (List.range 256).filterMap (fun xi =>
      if 100 < data ((yi * 4 * 1024 + xi * 4) * 4) then
        some ⟨((xi * 4 : ℕ) / 1024 - 1 / 2 : ℚ) * 75,
              -(((yi * 4 : ℕ) / 512 : ℚ) - 1 / 2) * 35, 0⟩
      else none))

/-- Swap the entries at positions i and j of a list; out-of-range positions
leave the list unchanged. -/
def listSwap (l : List Vec3) (i j : ℕ) : List Vec3 :=
  match l.get? i, l.get? j with
  | some a, some b => (l.set i b).set j a
  | _, _ => l

/-- The Fisher-Yates loop of generateTextLayout, walking the current index
down from the end of the list: at index i it swaps position i with
position floor(rand_i * (i + 1)). -/
def fisherYatesAux (rand : ℕ → ℚ) : ℕ → List Vec3 → List Vec3
  | 0, l => l
  | i + 1, l =>
      let j := (⌊rand (i + 1) * ((i + 1 : ℕ) + 1)⌋).toNat
      fisherYatesAux rand i (listSwap l (i + 1) j)

/-- Uniformly shuffle the collected point set. -/
def fisherYates (rand : ℕ → ℚ) (l : List Vec3) : List Vec3 :=
  fisherYatesAux rand (l.length - 1) l

/-- The collected point set after the shuffle pass. -/
def shuffledPoints (data : ℕ → ℕ) (shuffleRand : ℕ → ℚ) : List Vec3 :=
  fisherYates shuffleRand (samplePoints data)

/-- The i-th output point: the base point taken with wraparound
(index mod point count), plus jitter of (rand - 1/2) * 0.1 on x and y and
a fresh jittered z. -/
def jitteredPoint (points : List Vec3) (jitterRand : ℕ → ℚ) (i : ℕ) : Vec3 :=
  ⟨(points.getD (i % points.length) ⟨0, 0, 0⟩).x +
      (jitterRand (3 * i) - 1 / 2) * (1 / 10),
   (points.getD (i % points.length) ⟨0, 0, 0⟩).y +
      (jitterRand (3 * i + 1) - 1 / 2) * (1 / 10),
   (jitterRand (3 * i + 2) - 1 / 2) * (1 / 10)⟩

/-- generateTextLayout: collect the thresholded sample points, shuffle them,
and if none were collected return count copies of the origin; otherwise
emit count jittered points taken with wraparound. -/
def generateTextLayout (data : ℕ → ℕ) (count : ℕ)
    (shuffleRand jitterRand : ℕ → ℚ) : List Vec3 :=
  if (shuffledPoints data shuffleRand).length = 0 then
    List.replicate count ⟨0, 0, 0⟩
  else
    (List.range count).map (jitteredPoint (shuffledPoints data shuffleRand) jitterRand)

/-! ## Finger counting (countExtendedFingers and the two-hand total) -/

/-- A detected hand, reduced to the y-coordinates of its landmarks
(normalized image space, indexed by landmark number). -/
def Hand : Type := ℕ → ℚ

/-- countExtendedFingers: one count per digit whose fingertip landmark has
a smaller y than its corresponding lower-joint landmark (tip 8 vs joint 6,
12 vs 10, 16 vs 14, 20 vs 18, thumb 4 vs 2). -/
def countExtendedFingers (lm : Hand) : ℕ :=
  (if lm 8 < lm 6 then 1 else 0) +
  (if lm 12 < lm 10 then 1 else 0) +
  (if lm 16 < lm 14 then 1 else 0) +
  (if lm 20 < lm 18 then 1 else 0) +
  (if lm 4 < lm 2 then 1 else 0)

/-- The total finger count used by the month-selection branch: the naive sum
of the per-hand counts, overridden by the two-hand special cases
(1 and 1 gives 11, 1 and 2 in either order gives 12). -/
def gestureTotalCount : Hand → Option Hand → ℕ
  | h1, none => countExtendedFingers h1
  | h1, some h =>
      if (countExtendedFingers h1 = 1 ∧ countExtendedFingers h = 2) ∨
          (countExtendedFingers h1 = 2 ∧ countExtendedFingers h = 1)
      then 12
      else if countExtendedFingers h1 = 1 ∧ countExtendedFingers h = 1
      then 11
      else countExtendedFingers h1 + countExtendedFingers h

/-! ## Mode state and the gesture-frame handler -/

/-- The mode state mutated by the gesture interpreter and the input
handlers: the formed flag, the active month (category) filter, the active
photo id (-1 meaning none, as in the source), and the debounce timestamp
lastStateChangeTime. -/
structure AppState where
  formed : Bool
  activeMonth : Option ℕ
  activePhotoId : ℤ
  lastChange : ℕ
deriving DecidableEq, Repr

/-- The month-selection branch of the gesture handler: runs only when not
formed and at least one hand is detected; computes the total finger count
from the first one or two hands; if more than 2000ms elapsed since
lastStateChangeTime, the count is in [1,12] and differs from the current
active month, it sets the active month.  It does not touch
lastStateChangeTime. -/
def monthBranch : AppState → ℕ → List Hand → AppState
  | s, _, [] => s
  | s, now, h1 :: rest =>
      if s.formed = false ∧ 2000 < now - s.lastChange ∧
          1 ≤ gestureTotalCount h1 rest.head? ∧ gestureTotalCount h1 rest.head? ≤ 12 ∧
          s.activeMonth ≠ some (gestureTotalCount h1 rest.head?)
      then { s with activeMonth := some (gestureTotalCount h1 rest.head?) }
      else s

/-- One processed gesture frame (a frame whose recognizer result carries at
least one classified gesture): first the month-selection branch, then the
closed-fist branch (sets formed, clears the month, updates the debounce
timestamp), else the open-palm branch (scatters when formed, updates the
debounce timestamp).  The branch conditions read the frame-start state,
since the React refs they read are only synced after the handler
completes. -/
def processGestureFrame (s : AppState) (now : ℕ) (label : String)
    (hands : List Hand) : AppState :=
  if label = "Closed_Fist" then
    if s.formed = false ∨ s.activeMonth ≠ none then
      { monthBranch s now hands with formed := true, activeMonth := none, lastChange := now }
    else monthBranch s now hands
  else if label = "Open_Palm" then
    if s.formed = true then
      { monthBranch s now hands with formed := false, lastChange := now }
    else monthBranch s now hands
  else monthBranch s now hands

/-- The React effect keyed on the active month: whenever the month changed
to a non-null value, force formed to false and clear the active photo. -/
def monthEffect (old new : AppState) : AppState :=
  if new.activeMonth ≠ old.activeMonth ∧ new.activeMonth ≠ none then
    { new with formed := false, activePhotoId := -1 }
  else new

/-- A complete gesture-frame step: the handler followed by the month
effect. -/
def gestureStep (s : AppState) (now : ℕ) (label : String)
    (hands : List Hand) : AppState :=
  monthEffect s (processGestureFrame s now label hands)

/-! ## Carousel and camera-toggle handlers -/

/-- Number of photo entities. -/
def PHOTO_COUNT : ℕ := 150

/-- handleNext: advance the active photo id modulo PHOTO_COUNT, a no-op
when nothing is selected. -/
def handleNext (s : AppState) : AppState :=
  if s.activePhotoId = -1 then s
  else { s with activePhotoId := (s.activePhotoId + 1) % (PHOTO_COUNT : ℤ) }

/-- handlePrev: step the active photo id back modulo PHOTO_COUNT, a no-op
when nothing is selected. -/
def handlePrev (s : AppState) : AppState :=
  if s.activePhotoId = -1 then s
  else { s with activePhotoId := (s.activePhotoId - 1 + (PHOTO_COUNT : ℤ)) % (PHOTO_COUNT : ℤ) }

/-- handleClose: clear the active photo. -/
def handleClose (s : AppState) : AppState :=
  { s with activePhotoId := -1 }

/-- Turning the camera off: clears formed and the active month. -/
def camToggleOff (s : AppState) : AppState :=
  { s with formed := false, activeMonth := none }

/-! ## Upload handler (handleUpload) -/

/-- An uploaded file, reduced to what the upload pipeline depends on:
whether the browser can decode it into an image, and the month label
derived from its modification date. -/
structure UploadFile where
  decodable : Bool
  month : ℕ
deriving DecidableEq, Repr

/-- The settled result of handleUpload on one batch: every decodable file
produces one (texture, month) item and bumps loadedCount; the batch is
committed onto the previous texture list only when loadedCount reaches the
file count, which happens exactly when every file decoded (a file that
fails to decode never fires its load callback, and no error callback is
installed). -/
def handleUpload (prev : List ℕ) (files : List UploadFile) : List ℕ :=
  if files.length = 0 then prev
  else
    let newItems := (files.filter (fun f => f.decodable)).map (fun f => f.month)
    if newItems.length = files.length then prev ++ newItems else prev

/-! ## Selection resolver (handleRaycast) -/

/-- A scene object as the raycast handler sees it: its id, whether it is a
decoration (non-photo), and the normalized-device-space coordinates of its
current projected position. -/
structure RObj where
  id : ℕ
  isDeco : Bool
  sx : ℝ
  sy : ℝ

/-- Distance in normalized device space from an object's projected position
to the tap point (THREE.Vector2.distanceTo). -/
noncomputable def photoDist (mx my : ℝ) (o : RObj) : ℝ :=
  Real.sqrt ((o.sx - mx) ^ 2 + (o.sy - my) ^ 2)

open Classical in
/-- One iteration of the magnetism loop: a non-decoration object strictly
closer than the best distance so far becomes the new candidate. -/
noncomputable def magStep (mx my : ℝ) (acc : ℝ × ℤ) (o : RObj) : ℝ × ℤ :=
  if o.isDeco = false ∧ photoDist mx my o < acc.1
  then (photoDist mx my o, (o.id : ℤ))
  else acc

/-- The id produced by the direct raycast hit: the nearest intersected
object if it is a photo, else no selection. -/
def directHitId (hit : Option RObj) : ℤ :=
  match hit with
  | some o => if o.isDeco = false then (o.id : ℤ) else -1
  | none => -1

open Classical in
/-- The target id after the magnetism pass: the direct hit if any; else, on
a narrow viewport, the result of the magnetism loop with threshold 0.15
(in normalized device units) started from no selection. -/
noncomputable def raycastTarget1 (hit : Option RObj) (narrow : Bool)
    (objs : List RObj) (mx my : ℝ) : ℤ :=
  if directHitId hit = -1 ∧ narrow = true
  then (objs.foldl (magStep mx my) ((3 / 20 : ℝ), directHitId hit)).2
  else directHitId hit

open Classical in
/-- The final target id: when the magnetism pass found nothing, the viewport
is narrow, and nothing is currently selected, a uniformly random photo id
floor(rand * PHOTO_COUNT). -/
noncomputable def raycastTarget2 (s : AppState) (hit : Option RObj)
    (narrow : Bool) (objs : List RObj) (mx my rand : ℝ) : ℤ :=
  if raycastTarget1 hit narrow objs mx my = -1 ∧ narrow = true ∧
      s.activePhotoId = -1
  then ⌊rand * (PHOTO_COUNT : ℝ)⌋
  else raycastTarget1 hit narrow objs mx my

open Classical in
/-- handleRaycast: in film mode (active month set) do nothing.  Otherwise
resolve a target id through the direct hit, the magnetism fallback and the
random fallback; a resolved id (not -1) becomes the active photo. -/
noncomputable def handleRaycast (s : AppState) (hit : Option RObj)
    (narrow : Bool) (objs : List RObj) (mx my rand : ℝ) : AppState :=
  if s.activeMonth ≠ none then s
  else if raycastTarget2 s hit narrow objs mx my rand ≠ -1
  then { s with activePhotoId := raycastTarget2 s hit narrow objs mx my rand }
  else s

/-! ## The reachable mode states -/

/-- The initial mode state of a session. -/
def initState : AppState :=
  { formed := false, activeMonth := none, activePhotoId := -1, lastChange := 0 }

/-- One run-to-completion of any input or gesture-frame handler. -/
inductive Step : AppState → AppState → Prop where
  | gesture (s : AppState) (now : ℕ) (label : String) (hands : List Hand) :
      Step s (gestureStep s now label hands)
  | raycast (s : AppState) (hit : Option RObj) (narrow : Bool)
      (objs : List RObj) (mx my rand : ℝ) :
      Step s (handleRaycast s hit narrow objs mx my rand)
  | next (s : AppState) : Step s (handleNext s)
  | prev (s : AppState) : Step s (handlePrev s)
  | close (s : AppState) : Step s (handleClose s)
  | camOff (s : AppState) : Step s (camToggleOff s)

/-- States reachable from the initial state by handler runs. -/
def Reachable (s : AppState) : Prop :=
  Relation.ReflTransGen Step initState s

/-- Mode exclusivity: whenever a month filter is active, the scene is not
formed and no photo is selected. -/
def ModeInv (s : AppState) : Prop :=
  s.activeMonth ≠ none → s.formed = false ∧ s.activePhotoId = -1

/-! ## Concrete synthetic inputs used in counterexamples and witnesses -/

/-- A synthetic hand with exactly one extended finger (index tip above its
joint, every other tip below). -/
def handOne : Hand := fun n => if n = 8 then 0 else 1

/-- A synthetic hand with exactly two extended fingers. -/
def handTwo : Hand := fun n => if n = 8 ∨ n = 12 then 0 else 1

/-- A synthetic hand with exactly three extended fingers. -/
def handThree : Hand := fun n => if n = 8 ∨ n = 12 ∨ n = 16 then 0 else 1

/-- A synthetic hand with all five fingers extended. -/
def handFive : Hand :=
  fun n => if n = 8 ∨ n = 12 ∨ n = 16 ∨ n = 20 ∨ n = 4 then 0 else 1

/-! ## Helper lemmas about the gesture handler -/

lemma monthBranch_cases (s : AppState) (now : ℕ) (hands : List Hand) :
    monthBranch s now hands = s ∨
    (∃ h1 rest, hands = h1 :: rest ∧ s.formed = false ∧
      2000 < now - s.lastChange ∧
      1 ≤ gestureTotalCount h1 rest.head? ∧ gestureTotalCount h1 rest.head? ≤ 12 ∧
      s.activeMonth ≠ some (gestureTotalCount h1 rest.head?) ∧
      monthBranch s now hands =
        { s with activeMonth := some (gestureTotalCount h1 rest.head?) }) := by
  cases hands with
  | nil => exact Or.inl rfl
  | cons h1 rest =>
      simp only [monthBranch]
      split
      next hc =>
        exact Or.inr ⟨h1, rest, rfl, hc.1, hc.2.1, hc.2.2.1, hc.2.2.2.1, hc.2.2.2.2, rfl⟩
      next hc => exact Or.inl rfl

lemma monthBranch_lastChange (s : AppState) (now : ℕ) (hands : List Hand) :
    (monthBranch s now hands).lastChange = s.lastChange := by
  rcases monthBranch_cases s now hands with h | ⟨h1, rest, _, _, _, _, _, _, h⟩ <;>
    rw [h]

lemma monthBranch_formed (s : AppState) (now : ℕ) (hands : List Hand) :
    (monthBranch s now hands).formed = s.formed := by
  rcases monthBranch_cases s now hands with h | ⟨h1, rest, _, _, _, _, _, _, h⟩ <;>
    rw [h]

lemma monthBranch_activePhotoId (s : AppState) (now : ℕ) (hands : List Hand) :
    (monthBranch s now hands).activePhotoId = s.activePhotoId := by
  rcases monthBranch_cases s now hands with h | ⟨h1, rest, _, _, _, _, _, _, h⟩ <;>
    rw [h]

lemma monthBranch_fires (s : AppState) (now : ℕ) (h1 : Hand) (rest : List Hand)
    (hf : s.formed = false) (ht : 2000 < now - s.lastChange)
    (hlo : 1 ≤ gestureTotalCount h1 rest.head?)
    (hhi : gestureTotalCount h1 rest.head? ≤ 12)
    (hne : s.activeMonth ≠ some (gestureTotalCount h1 rest.head?)) :
    monthBranch s now (h1 :: rest) =
      { s with activeMonth := some (gestureTotalCount h1 rest.head?) } := by
  simp only [monthBranch]
  rw [if_pos ⟨hf, ht, hlo, hhi, hne⟩]

lemma monthEffect_lastChange (old new : AppState) :
    (monthEffect old new).lastChange = new.lastChange := by
  unfold monthEffect
  split <;> rfl

lemma monthEffect_activeMonth (old new : AppState) :
    (monthEffect old new).activeMonth = new.activeMonth := by
  unfold monthEffect
  split <;> rfl

lemma processGestureFrame_other (s : AppState) (now : ℕ) (label : String)
    (hands : List Hand) (hl1 : label ≠ "Closed_Fist") (hl2 : label ≠ "Open_Palm") :
    processGestureFrame s now label hands = monthBranch s now hands := by
  unfold processGestureFrame
  rw [if_neg hl1, if_neg hl2]

lemma countExtendedFingers_le_five (h : Hand) : countExtendedFingers h ≤ 5 := by
  unfold countExtendedFingers
  split_ifs <;> norm_num

/-! ## Claim theorems -/

/-- Claim C6: whenever a processed gesture frame is classified as a closed
fist and the session is not formed or a category is active, the handler
sets formed to true, clears the active category, and resets the debounce
gate to the current time. -/
theorem C6_closed_fist_transition (s : AppState) (now : ℕ) (hands : List Hand)
    (h : s.formed = false ∨ s.activeMonth ≠ none) :
    (gestureStep s now "Closed_Fist" hands).formed = true ∧
    (gestureStep s now "Closed_Fist" hands).activeMonth = none ∧
    (gestureStep s now "Closed_Fist" hands).lastChange = now := by
  unfold gestureStep processGestureFrame
  rw [if_pos rfl, if_pos h]
  unfold monthEffect
  split
  next hcond => exact absurd rfl hcond.2
  next => exact ⟨rfl, rfl, rfl⟩

/-- Witness for C6 at a concrete state. -/
theorem C6_closed_fist_transition_witness :
    (gestureStep initState 5000 "Closed_Fist" []).formed = true ∧
    (gestureStep initState 5000 "Closed_Fist" []).activeMonth = none ∧
    (gestureStep initState 5000 "Closed_Fist" []).lastChange = 5000 :=
  C6_closed_fist_transition initState 5000 [] (Or.inl rfl)

/-- Claim C1 counterexample: starting from the initial state, a qualifying
three-finger signal at time 2001 and a qualifying five-finger signal at
time 2002 (one millisecond apart, both within a 2000ms window of each
other) BOTH produce category transitions, and the first transition leaves
the debounce gate untouched — refuting both the single-transition claim
and the gate-update claim. -/
theorem C1_debounce_counterexample :
    (gestureStep initState 2001 "Pointing_Up" [handThree]).activeMonth = some 3 ∧
    (gestureStep initState 2001 "Pointing_Up" [handThree]).lastChange = 0 ∧
    (gestureStep (gestureStep initState 2001 "Pointing_Up" [handThree]) 2002
        "Pointing_Up" [handFive]).activeMonth = some 5 := by
  decide

/-- Claim C1 (amended): category transitions are debounced only against
the last fist/palm transition.  On a gesture frame whose label is neither
closed fist nor open palm: the debounce gate is never updated; no category
transition occurs within 2000ms of the gate; and a qualifying signal more
than 2000ms after the gate always applies, regardless of its spacing to
earlier category transitions. -/
theorem C1_debounce_amended (s : AppState) (now : ℕ) (label : String)
    (hands : List Hand) (hl1 : label ≠ "Closed_Fist") (hl2 : label ≠ "Open_Palm") :
    (gestureStep s now label hands).lastChange = s.lastChange ∧
    (now - s.lastChange ≤ 2000 →
      (gestureStep s now label hands).activeMonth = s.activeMonth) ∧
    (∀ h1 rest, hands = h1 :: rest → s.formed = false →
      2000 < now - s.lastChange →
      1 ≤ gestureTotalCount h1 rest.head? →
      gestureTotalCount h1 rest.head? ≤ 12 →
      s.activeMonth ≠ some (gestureTotalCount h1 rest.head?) →
      (gestureStep s now label hands).activeMonth =
        some (gestureTotalCount h1 rest.head?)) := by
  unfold gestureStep
  rw [processGestureFrame_other s now label hands hl1 hl2]
  refine ⟨?_, ?_, ?_⟩
  · rw [monthEffect_lastChange, monthBranch_lastChange]
  · intro hle
    rw [monthEffect_activeMonth]
    rcases monthBranch_cases s now hands with h | ⟨h1, rest, _, _, ht, _, _, _, _⟩
    · rw [h]
    · omega
  · intro h1 rest hh hf ht hlo hhi hne
    subst hh
    rw [monthEffect_activeMonth, monthBranch_fires s now h1 rest hf ht hlo hhi hne]

/-- Witness for the amended C1 at a concrete qualifying signal. -/
theorem C1_debounce_amended_witness :
    (gestureStep initState 2001 "Pointing_Up" [handThree]).lastChange =
      initState.lastChange ∧
    (2001 - initState.lastChange ≤ 2000 →
      (gestureStep initState 2001 "Pointing_Up" [handThree]).activeMonth =
        initState.activeMonth) ∧
    (∀ h1 rest, ([handThree] : List Hand) = h1 :: rest → initState.formed = false →
      2000 < 2001 - initState.lastChange →
      1 ≤ gestureTotalCount h1 rest.head? →
      gestureTotalCount h1 rest.head? ≤ 12 →
      initState.activeMonth ≠ some (gestureTotalCount h1 rest.head?) →
      (gestureStep initState 2001 "Pointing_Up" [handThree]).activeMonth =
        some (gestureTotalCount h1 rest.head?)) :=
  C1_debounce_amended initState 2001 "Pointing_Up" [handThree]
    (by decide) (by decide)

/-- Claim C2: the code contradicts the upload-resilience requirement.  A
batch of three decodable images and one undecodable file commits NO new
textures at all (the corrupt file's load callback never fires, the batch
counter never reaches the file count, and the commit is skipped), instead
of the required three; an all-decodable batch of three commits exactly
three. -/
theorem C2_upload_failing_input :
    handleUpload [] [⟨true, 1⟩, ⟨true, 2⟩, ⟨true, 3⟩, ⟨false, 4⟩] = [] ∧
    handleUpload [] [⟨true, 1⟩, ⟨true, 2⟩, ⟨true, 3⟩] = [1, 2, 3] := by
  decide

/-- Claim C5: the extended-finger count of a hand is exactly the number of
the five digit pairs whose fingertip y lies above (below in value) its
lower joint y, hence at most 5 per hand and at most 10 naive total; with
two hands, one-and-one yields 11, one-and-two in either order yields 12,
and otherwise the naive sum stands. -/
theorem C5_finger_count_mapping (h1 h2 : Hand) :
    countExtendedFingers h1 =
      (([(8, 6), (12, 10), (16, 14), (20, 18), (4, 2)] : List (ℕ × ℕ)).countP
        (fun pr => decide (h1 pr.1 < h1 pr.2))) ∧
    countExtendedFingers h1 ≤ 5 ∧
    gestureTotalCount h1 none = countExtendedFingers h1 ∧
    countExtendedFingers h1 + countExtendedFingers h2 ≤ 10 ∧
    (countExtendedFingers h1 = 1 ∧ countExtendedFingers h2 = 1 →
      gestureTotalCount h1 (some h2) = 11) ∧
    ((countExtendedFingers h1 = 1 ∧ countExtendedFingers h2 = 2) ∨
        (countExtendedFingers h1 = 2 ∧ countExtendedFingers h2 = 1) →
      gestureTotalCount h1 (some h2) = 12) ∧
    (¬(countExtendedFingers h1 = 1 ∧ countExtendedFingers h2 = 1) →
      ¬((countExtendedFingers h1 = 1 ∧ countExtendedFingers h2 = 2) ∨
        (countExtendedFingers h1 = 2 ∧ countExtendedFingers h2 = 1)) →
      gestureTotalCount h1 (some h2) =
        countExtendedFingers h1 + countExtendedFingers h2) := by
  refine ⟨?_, countExtendedFingers_le_five h1, rfl, ?_, ?_, ?_, ?_⟩
  · unfold countExtendedFingers
    simp only [List.countP_cons, List.countP_nil, decide_eq_true_eq]
    split_ifs <;> norm_num
  · have a := countExtendedFingers_le_five h1
    have b := countExtendedFingers_le_five h2
    omega
  · intro hc
    simp only [gestureTotalCount, hc.1, hc.2]
    norm_num
  · intro hc
    simp only [gestureTotalCount]
    rw [if_pos hc]
  · intro hn1 hn2
    simp only [gestureTotalCount]
    rw [if_neg hn2, if_neg hn1]

/-- Witness for C5: the two-hand special cases at concrete synthetic
hands. -/
theorem C5_finger_count_mapping_witness :
    gestureTotalCount handOne (some handOne) = 11 ∧
    gestureTotalCount handOne (some handTwo) = 12 :=
  ⟨(C5_finger_count_mapping handOne handOne).2.2.2.2.1 ⟨by decide, by decide⟩,
   (C5_finger_count_mapping handOne handTwo).2.2.2.2.2.1
     (Or.inl ⟨by decide, by decide⟩)⟩

/-! ## Merge loop characterization -/

lemma foldl_mergeStep_pos (gs : List BufferGeometry) (acc : MergeAcc) :
    (gs.foldl mergeStep acc).pos = acc.pos ++ gs.flatMap (fun g => g.position) := by
  induction gs generalizing acc with
  | nil => simp
  | cons g gs ih =>
      rw [List.foldl_cons, ih]
      simp [mergeStep]

lemma foldl_mergeStep_idx (gs : List BufferGeometry) (acc : MergeAcc) :
    (gs.foldl mergeStep acc).idx = acc.idx ++ specOffsetConcat gs acc.vOffset := by
  induction gs generalizing acc with
  | nil => simp [specOffsetConcat]
  | cons g gs ih =>
      rw [List.foldl_cons, ih]
      simp only [mergeStep, specOffsetConcat]
      cases g.index <;> simp

/-- The degenerate input used against the index-presence claim: a geometry
that has an index buffer, but an empty one. -/
def emptyIndexGeom : BufferGeometry := ⟨[(0, 0, 0)], some []⟩

/-- Claim C10 counterexample: merging a single geometry that carries an
(empty) index buffer yields a geometry with NO index buffer, refuting
"the index buffer is present exactly when some input has an index". -/
theorem C10_merge_counterexample :
    (mergeBufferGeometries [emptyIndexGeom]).index = none ∧
    emptyIndexGeom.index ≠ none := by
  decide

/-- Claim C10 (amended): the merged position attribute is the in-order
concatenation of the inputs' positions (so its vertex count is the sum of
the inputs' counts), and the index buffer is present exactly when the
inputs' total index count is positive — equivalently, when some input has
a NONEMPTY index — in which case it is the in-order concatenation of the
inputs' indices with each entry shifted by the total vertex count of the
preceding geometries. -/
theorem C10_merge_concatenation (gs : List BufferGeometry) :
    (mergeBufferGeometries gs).position = gs.flatMap (fun g => g.position) ∧
    (mergeBufferGeometries gs).position.length =
      (gs.map (fun g => g.position.length)).sum ∧
    ((mergeBufferGeometries gs).index = none ↔ totalIndexCount gs = 0) ∧
    (0 < totalIndexCount gs →
      (mergeBufferGeometries gs).index = some (specOffsetConcat gs 0)) ∧
    (totalIndexCount gs = 0 ↔ ∀ g ∈ gs, ∀ ix, g.index = some ix → ix = []) := by
  have hpos : (mergeBufferGeometries gs).position = gs.flatMap (fun g => g.position) := by
    show (gs.foldl mergeStep ⟨[], [], 0⟩).pos = _
    rw [foldl_mergeStep_pos]
    rfl
  have hidx : (mergeBufferGeometries gs).index =
      if 0 < totalIndexCount gs then some (specOffsetConcat gs 0) else none := by
    show (if 0 < totalIndexCount gs
        then some ((gs.foldl mergeStep ⟨[], [], 0⟩).idx) else none) = _
    split
    · rw [foldl_mergeStep_idx]
      rfl
    · rfl
  refine ⟨hpos, ?_, ?_, ?_, ?_⟩
  · rw [hpos, List.length_flatMap]
    rfl
  · rw [hidx]
    split
    next hp => exact ⟨fun h => Option.noConfusion h, fun h => absurd h (by omega)⟩
    next hp => exact ⟨fun _ => by omega, fun _ => rfl⟩
  · intro hp
    rw [hidx, if_pos hp]
  · unfold totalIndexCount
    rw [List.sum_eq_zero_iff]
    constructor
    · intro hall g hg ix hix
      have := hall _ (List.mem_map_of_mem _ hg)
      rw [hix] at this
      simpa using this
    · intro hall n hn
      rcases List.mem_map.mp hn with ⟨g, hg, rfl⟩
      cases hix : g.index with
      | none => simp [hix]
      | some ix => simp [hix, hall g hg ix hix]

/-- Witness for the amended C10: a two-geometry merge with the second
geometry's index shifted by the first geometry's vertex count. -/
theorem C10_merge_concatenation_witness :
    (mergeBufferGeometries
      [⟨[(0, 0, 0), (1, 0, 0)], some [0, 1]⟩, ⟨[(2, 0, 0)], some [0]⟩]).index =
    some (specOffsetConcat
      [⟨[(0, 0, 0), (1, 0, 0)], some [0, 1]⟩, ⟨[(2, 0, 0)], some [0]⟩] 0) :=
  (C10_merge_concatenation
    [⟨[(0, 0, 0), (1, 0, 0)], some [0, 1]⟩, ⟨[(2, 0, 0)], some [0]⟩]).2.2.2.1
    (by decide)

/-! ## Layout generator lemmas -/

lemma length_listSwap (l : List Vec3) (i j : ℕ) :
    (listSwap l i j).length = l.length := by
  unfold listSwap
  split
  · simp
  · rfl

lemma mem_listSwap (l : List Vec3) (i j : ℕ) (x : Vec3)
    (hx : x ∈ listSwap l i j) : x ∈ l := by
  unfold listSwap at hx
  split at hx
  next a b hi hj =>
    rcases List.mem_or_eq_of_mem_set hx with hx1 | rfl
    · rcases List.mem_or_eq_of_mem_set hx1 with hx2 | rfl
      · exact hx2
      · exact List.get?_mem hj
    · exact List.get?_mem hi
  next => exact hx

lemma length_fisherYatesAux (rand : ℕ → ℚ) (n : ℕ) (l : List Vec3) :
    (fisherYatesAux rand n l).length = l.length := by
  induction n generalizing l with
  | zero => rfl
  | succ i ih =>
      simp only [fisherYatesAux]
      rw [ih, length_listSwap]

lemma mem_fisherYatesAux (rand : ℕ → ℚ) (n : ℕ) (l : List Vec3) (x : Vec3)
    (hx : x ∈ fisherYatesAux rand n l) : x ∈ l := by
  induction n generalizing l with
  | zero => exact hx
  | succ i ih =>
      simp only [fisherYatesAux] at hx
      exact mem_listSwap _ _ _ _ (ih _ hx)

lemma length_shuffledPoints (data : ℕ → ℕ) (sr : ℕ → ℚ) :
    (shuffledPoints data sr).length = (samplePoints data).length := by
  unfold shuffledPoints fisherYates
  rw [length_fisherYatesAux]

lemma mem_shuffledPoints (data : ℕ → ℕ) (sr : ℕ → ℚ) (x : Vec3)
    (hx : x ∈ shuffledPoints data sr) : x ∈ samplePoints data := by
  unfold shuffledPoints fisherYates at hx
  exact mem_fisherYatesAux _ _ _ _ hx

lemma samplePoints_bounds (data : ℕ → ℕ) (p : Vec3)
    (hp : p ∈ samplePoints data) : |p.x| ≤ 75 / 2 ∧ |p.y| ≤ 35 / 2 := by
  unfold samplePoints at hp
  rw [List.mem_flatMap] at hp
  rcases hp with ⟨yi, hyi, hp⟩
  rw [List.mem_filterMap] at hp
  rcases hp with ⟨xi, hxi, hx⟩
  rw [List.mem_range] at hyi hxi
  split at hx
  · have hx0 : (0 : ℚ) ≤ (xi : ℚ) := Nat.cast_nonneg xi
    have hy0 : (0 : ℚ) ≤ (yi : ℚ) := Nat.cast_nonneg yi
    have hx1 : (xi : ℚ) ≤ 255 := by exact_mod_cast Nat.lt_succ_iff.mp hxi
    have hy1 : (yi : ℚ) ≤ 127 := by exact_mod_cast Nat.lt_succ_iff.mp hyi
    have hpx := Option.some.inj hx
    subst hpx
    constructor
    · rw [abs_le]
      push_cast
      constructor <;> linarith
    · rw [abs_le]
      push_cast
      constructor <;> linarith
  · exact Option.noConfusion hx

lemma getD_mem_of_lt (l : List Vec3) (n : ℕ) (d : Vec3) (h : n < l.length) :
    l.getD n d ∈ l := by
  rw [List.getD_eq_getElem l d h]
  exact List.getElem_mem h

/-- Claim C4: for every rasterized bitmap, target count and admissible
jitter stream, generateTextLayout returns exactly count points, every
point's x and y lie within the 75-by-35 design footprint plus at most 0.1
units of jitter per axis, and when rasterization yields zero sample points
the result is count copies of the origin. -/
theorem C4_layout_generator (data : ℕ → ℕ) (count : ℕ) (sr jr : ℕ → ℚ)
    (hjr : ∀ n, 0 ≤ jr n ∧ jr n < 1) :
    (generateTextLayout data count sr jr).length = count ∧
    (∀ p ∈ generateTextLayout data count sr jr,
      |p.x| ≤ 75 / 2 + 1 / 10 ∧ |p.y| ≤ 35 / 2 + 1 / 10) ∧
    (samplePoints data = [] →
      generateTextLayout data count sr jr = List.replicate count ⟨0, 0, 0⟩) := by
  refine ⟨?_, ?_, ?_⟩
  · unfold generateTextLayout
    split
    · rw [List.length_replicate]
    · rw [List.length_map, List.length_range]
  · intro p hp
    unfold generateTextLayout at hp
    split at hp
    · have := List.eq_of_mem_replicate hp
      subst this
      norm_num
    · next hne =>
      rw [List.mem_map] at hp
      rcases hp with ⟨i, _, hpe⟩
      subst hpe
      have hlen : 0 < (shuffledPoints data sr).length := Nat.pos_of_ne_zero hne
      have hmod : i % (shuffledPoints data sr).length < (shuffledPoints data sr).length :=
        Nat.mod_lt _ hlen
      have hqmem : (shuffledPoints data sr).getD
          (i % (shuffledPoints data sr).length) ⟨0, 0, 0⟩ ∈ samplePoints data :=
        mem_shuffledPoints data sr _ (getD_mem_of_lt _ _ _ hmod)
      have hq := samplePoints_bounds data _ hqmem
      have hj1 := hjr (3 * i)
      have hj2 := hjr (3 * i + 1)
      constructor
      · have htri := abs_add
          ((shuffledPoints data sr).getD (i % (shuffledPoints data sr).length) ⟨0, 0, 0⟩).x
          ((jr (3 * i) - 1 / 2) * (1 / 10))
        have hjb : |(jr (3 * i) - 1 / 2) * (1 / 10)| ≤ 1 / 20 := by
          rw [abs_mul]
          have : |jr (3 * i) - 1 / 2| ≤ 1 / 2 := by
            rw [abs_le]
            constructor <;> [linarith [hj1.1]; linarith [hj1.2]]
          rw [show |(1 / 10 : ℚ)| = 1 / 10 by norm_num]
          linarith
        show |((shuffledPoints data sr).getD (i % (shuffledPoints data sr).length)
            ⟨0, 0, 0⟩).x + (jr (3 * i) - 1 / 2) * (1 / 10)| ≤ 75 / 2 + 1 / 10
        calc _ ≤ _ := htri
        _ ≤ 75 / 2 + 1 / 10 := by linarith [hq.1]
      · have htri := abs_add
          ((shuffledPoints data sr).getD (i % (shuffledPoints data sr).length) ⟨0, 0, 0⟩).y
          ((jr (3 * i + 1) - 1 / 2) * (1 / 10))
        have hjb : |(jr (3 * i + 1) - 1 / 2) * (1 / 10)| ≤ 1 / 20 := by
          rw [abs_mul]
          have : |jr (3 * i + 1) - 1 / 2| ≤ 1 / 2 := by
            rw [abs_le]
            constructor <;> [linarith [hj2.1]; linarith [hj2.2]]
          rw [show |(1 / 10 : ℚ)| = 1 / 10 by norm_num]
          linarith
        show |((shuffledPoints data sr).getD (i % (shuffledPoints data sr).length)
            ⟨0, 0, 0⟩).y + (jr (3 * i + 1) - 1 / 2) * (1 / 10)| ≤ 35 / 2 + 1 / 10
        calc _ ≤ _ := htri
        _ ≤ 35 / 2 + 1 / 10 := by linarith [hq.2]
  · intro hempty
    unfold generateTextLayout
    rw [if_pos]
    rw [length_shuffledPoints, hempty]
    rfl

/-- Witness for C4 at a fully dark bitmap and constant jitter stream. -/
theorem C4_layout_generator_witness :
    (generateTextLayout (fun _ => 0) 3 (fun _ => 0) (fun _ => 0)).length = 3 ∧
    (∀ p ∈ generateTextLayout (fun _ => 0) 3 (fun _ => 0) (fun _ => 0),
      |p.x| ≤ 75 / 2 + 1 / 10 ∧ |p.y| ≤ 35 / 2 + 1 / 10) ∧
    (samplePoints (fun _ => 0) = [] →
      generateTextLayout (fun _ => 0) 3 (fun _ => 0) (fun _ => 0) =
        List.replicate 3 ⟨0, 0, 0⟩) :=
  C4_layout_generator (fun _ => 0) 3 (fun _ => 0) (fun _ => 0)
    (fun _ => ⟨le_refl 0, by norm_num⟩)

/-! ## Progress controller lemmas -/

lemma progressUpdate_sub (dt target p : ℝ) :
    target - progressUpdate dt target p =
      (target - p) * Real.exp (-(3 : ℝ) * dt) := by
  unfold progressUpdate lerp
  ring

lemma progressIterate_sub (dt target p : ℝ) (n : ℕ) :
    target - progressIterate dt target p n =
      (target - p) * (Real.exp (-(3 : ℝ) * dt)) ^ n := by
  induction n with
  | zero => simp [progressIterate]
  | succ k ih =>
      show target - progressUpdate dt target (progressIterate dt target p k) = _
      rw [progressUpdate_sub, ih]
      ring

lemma exp_le_one_of_dt (dt : ℝ) (hdt : 0 ≤ dt) :
    Real.exp (-(3 : ℝ) * dt) ≤ 1 := by
  rw [show (1 : ℝ) = Real.exp 0 by rw [Real.exp_zero]]
  exact Real.exp_le_exp.mpr (by nlinarith)

lemma progressUpdate_between_le (dt target p : ℝ) (hdt : 0 ≤ dt)
    (hpt : p ≤ target) :
    p ≤ progressUpdate dt target p ∧ progressUpdate dt target p ≤ target := by
  have hE0 := Real.exp_pos (-(3 : ℝ) * dt)
  have hE1 := exp_le_one_of_dt dt hdt
  have hsub := progressUpdate_sub dt target p
  constructor
  · unfold progressUpdate lerp
    nlinarith
  · nlinarith

lemma progressUpdate_between_ge (dt target p : ℝ) (hdt : 0 ≤ dt)
    (hpt : target ≤ p) :
    target ≤ progressUpdate dt target p ∧ progressUpdate dt target p ≤ p := by
  have hE0 := Real.exp_pos (-(3 : ℝ) * dt)
  have hE1 := exp_le_one_of_dt dt hdt
  have hsub := progressUpdate_sub dt target p
  constructor
  · nlinarith
  · unfold progressUpdate lerp
    nlinarith

/-- Claim C3 counterexample: with dt = 0 the update is the identity (the
smoothing factor 1 - exp(0) vanishes), so starting at progress 0 with
target 1 the iterates never come within 1/2 of the target — refuting the
convergence clause for "every dt >= 0". -/
theorem C3_progress_counterexample :
    ¬ ∃ N, |progressIterate 0 1 0 N - 1| < 1 / 2 := by
  have hiter : ∀ N, progressIterate 0 1 0 N = 0 := by
    intro N
    induction N with
    | zero => rfl
    | succ n ih =>
        show progressUpdate 0 1 (progressIterate 0 1 0 n) = 0
        rw [ih]
        unfold progressUpdate lerp
        rw [show (-(3 : ℝ) * 0) = 0 by ring, Real.exp_zero]
        ring
  rintro ⟨N, hN⟩
  rw [hiter N] at hN
  norm_num at hN

/-- Claim C3 (amended): the per-frame update is exactly
progress + (target - progress) * (1 - exp(-3 dt)); for target in {0,1},
progress in [0,1] and dt >= 0 the update stays in [0,1], the iterates move
monotonically toward the target without ever overshooting it, and the
distance to the target never grows; convergence within every positive
epsilon holds for every POSITIVE dt (with dt = 0 the update is the
identity). -/
theorem C3_progress_controller (target p dt : ℝ)
    (htgt : target = 0 ∨ target = 1) (hp0 : 0 ≤ p) (hp1 : p ≤ 1) (hdt : 0 ≤ dt) :
    progressUpdate dt target p =
      p + (target - p) * (1 - Real.exp (-(3 : ℝ) * dt)) ∧
    (0 ≤ progressUpdate dt target p ∧ progressUpdate dt target p ≤ 1) ∧
    (∀ n, |target - progressIterate dt target p (n + 1)| ≤
      |target - progressIterate dt target p n|) ∧
    (p ≤ target → ∀ n,
      progressIterate dt target p n ≤ progressIterate dt target p (n + 1) ∧
      progressIterate dt target p n ≤ target) ∧
    (target ≤ p → ∀ n,
      progressIterate dt target p (n + 1) ≤ progressIterate dt target p n ∧
      target ≤ progressIterate dt target p n) ∧
    (0 < dt → ∀ ε : ℝ, 0 < ε →
      ∃ N, |progressIterate dt target p N - target| < ε) := by
  have hE0 := Real.exp_pos (-(3 : ℝ) * dt)
  have hE1 := exp_le_one_of_dt dt hdt
  refine ⟨by unfold progressUpdate lerp; ring, ?_, ?_, ?_, ?_, ?_⟩
  · rcases htgt with rfl | rfl
    · have h := progressUpdate_between_ge dt 0 p hdt hp0
      exact ⟨h.1, le_trans h.2 hp1⟩
    · have h := progressUpdate_between_le dt 1 p hdt hp1
      exact ⟨le_trans hp0 h.1, h.2⟩
  · intro n
    have hstep : target - progressIterate dt target p (n + 1) =
        (target - progressIterate dt target p n) * Real.exp (-(3 : ℝ) * dt) := by
      show target - progressUpdate dt target (progressIterate dt target p n) = _
      exact progressUpdate_sub dt target (progressIterate dt target p n)
    rw [hstep, abs_mul, abs_of_pos hE0]
    nlinarith [abs_nonneg (target - progressIterate dt target p n)]
  · intro hpt n
    induction n with
    | zero =>
        exact ⟨(progressUpdate_between_le dt target p hdt hpt).1, hpt⟩
    | succ k ih =>
        have hk : progressIterate dt target p (k + 1) ≤ target :=
          (progressUpdate_between_le dt target (progressIterate dt target p k) hdt ih.2).2
        exact ⟨(progressUpdate_between_le dt target
          (progressIterate dt target p (k + 1)) hdt hk).1, hk⟩
  · intro hpt n
    induction n with
    | zero =>
        exact ⟨(progressUpdate_between_ge dt target p hdt hpt).2, hpt⟩
    | succ k ih =>
        have hk : target ≤ progressIterate dt target p (k + 1) :=
          (progressUpdate_between_ge dt target (progressIterate dt target p k) hdt ih.2).1
        exact ⟨(progressUpdate_between_ge dt target
          (progressIterate dt target p (k + 1)) hdt hk).2, hk⟩
  · intro hdtpos ε hε
    have hElt : Real.exp (-(3 : ℝ) * dt) < 1 := by
      rw [show (1 : ℝ) = Real.exp 0 by rw [Real.exp_zero]]
      exact Real.exp_lt_exp.mpr (by nlinarith)
    have habs : 0 ≤ |target - p| := abs_nonneg _
    obtain ⟨N, hN⟩ := exists_pow_lt_of_lt_one
      (show 0 < ε / (|target - p| + 1) by positivity) hElt
    refine ⟨N, ?_⟩
    have hform := progressIterate_sub dt target p N
    have : |progressIterate dt target p N - target| =
        |target - p| * (Real.exp (-(3 : ℝ) * dt)) ^ N := by
      rw [abs_sub_comm, hform, abs_mul, abs_of_nonneg (pow_nonneg (le_of_lt hE0) N)]
    rw [this]
    have hpow0 : (0 : ℝ) ≤ (Real.exp (-(3 : ℝ) * dt)) ^ N :=
      pow_nonneg (le_of_lt hE0) N
    have hmul : |target - p| * (Real.exp (-(3 : ℝ) * dt)) ^ N ≤
        |target - p| * (ε / (|target - p| + 1)) := by
      apply mul_le_mul_of_nonneg_left (le_of_lt hN) habs
    calc |target - p| * (Real.exp (-(3 : ℝ) * dt)) ^ N
        ≤ |target - p| * (ε / (|target - p| + 1)) := hmul
      _ < ε := by
          have hb : (0 : ℝ) < |target - p| + 1 := by positivity
          rw [← mul_div_assoc, div_lt_iff₀ hb]
          nlinarith [hε]

/-- Witness for the amended C3 at target 1, starting progress 0, dt 1. -/
theorem C3_progress_controller_witness :
    progressUpdate 1 1 0 =
      0 + (1 - 0) * (1 - Real.exp (-(3 : ℝ) * 1)) ∧
    (0 ≤ progressUpdate 1 1 0 ∧ progressUpdate 1 1 0 ≤ 1) ∧
    (∀ n, |1 - progressIterate 1 1 0 (n + 1)| ≤
      |1 - progressIterate 1 1 0 n|) ∧
    ((0 : ℝ) ≤ 1 → ∀ n,
      progressIterate 1 1 0 n ≤ progressIterate 1 1 0 (n + 1) ∧
      progressIterate 1 1 0 n ≤ 1) ∧
    ((1 : ℝ) ≤ 0 → ∀ n,
      progressIterate 1 1 0 (n + 1) ≤ progressIterate 1 1 0 n ∧
      (1 : ℝ) ≤ progressIterate 1 1 0 n) ∧
    ((0 : ℝ) < 1 → ∀ ε : ℝ, 0 < ε →
      ∃ N, |progressIterate 1 1 0 N - 1| < ε) :=
  C3_progress_controller 1 0 1 (Or.inr rfl) le_rfl zero_le_one zero_le_one

/-! ## Selection resolver lemmas -/

lemma magFold_spec (mx my : ℝ) (l : List RObj) (c : ℝ) (t : ℤ) :
    (l.foldl (magStep mx my) (c, t) = (c, t) ∧
      ∀ o ∈ l, o.isDeco = false → c ≤ photoDist mx my o) ∨
    (∃ o ∈ l, o.isDeco = false ∧
      (l.foldl (magStep mx my) (c, t)).2 = o.id ∧
      (l.foldl (magStep mx my) (c, t)).1 = photoDist mx my o ∧
      (l.foldl (magStep mx my) (c, t)).1 < c ∧
      ∀ q ∈ l, q.isDeco = false →
        (l.foldl (magStep mx my) (c, t)).1 ≤ photoDist mx my q) := by
  induction l generalizing c t with
  | nil => exact Or.inl ⟨rfl, by simp⟩
  | cons o l ih =>
      rw [List.foldl_cons]
      by_cases hco : o.isDeco = false ∧ photoDist mx my o < c
      · rw [show magStep mx my (c, t) o = (photoDist mx my o, (o.id : ℤ)) from by
          unfold magStep; rw [if_pos hco]]
        rcases ih (photoDist mx my o) ((o.id : ℤ)) with ⟨heq, hall⟩ | ⟨o2, ho2, hd2, h2, h1, hlt, hall⟩
        · refine Or.inr ⟨o, List.mem_cons_self o l, hco.1, ?_, ?_, ?_, ?_⟩
          · rw [heq]
          · rw [heq]
          · rw [heq]; exact hco.2
          · intro q hq hqd
            rcases List.mem_cons.mp hq with rfl | hql
            · rw [heq]
            · rw [heq]; exact hall q hql hqd
        · refine Or.inr ⟨o2, List.mem_cons_of_mem o ho2, hd2, h2, h1, lt_trans hlt hco.2, ?_⟩
          intro q hq hqd
          rcases List.mem_cons.mp hq with rfl | hql
          · exact le_of_lt hlt
          · exact hall q hql hqd
      · rw [show magStep mx my (c, t) o = (c, t) from by
          unfold magStep; rw [if_neg hco]]
        rcases ih c t with ⟨heq, hall⟩ | ⟨o2, ho2, hd2, h2, h1, hlt, hall⟩
        · refine Or.inl ⟨heq, ?_⟩
          intro q hq hqd
          rcases List.mem_cons.mp hq with rfl | hql
          · exact le_of_not_lt (fun hl => hco ⟨hqd, hl⟩)
          · exact hall q hql hqd
        · refine Or.inr ⟨o2, List.mem_cons_of_mem o ho2, hd2, h2, h1, hlt, ?_⟩
          intro q hq hqd
          rcases List.mem_cons.mp hq with rfl | hql
          · exact le_of_lt (lt_of_lt_of_le hlt (le_of_not_lt (fun hl => hco ⟨hqd, hl⟩)))
          · exact hall q hql hqd

lemma handleRaycast_film (s : AppState) (hit : Option RObj) (narrow : Bool)
    (objs : List RObj) (mx my rand : ℝ) (hm : s.activeMonth ≠ none) :
    handleRaycast s hit narrow objs mx my rand = s := by
  unfold handleRaycast
  rw [if_pos hm]

/-- Claim C9: while a category filter is active, the raycast selection path
leaves the entire mode state (including the selection) unchanged. -/
theorem C9_film_mode_tap_suppression (s : AppState) (hit : Option RObj)
    (narrow : Bool) (objs : List RObj) (mx my rand : ℝ) (m : ℕ)
    (hm : s.activeMonth = some m) :
    handleRaycast s hit narrow objs mx my rand = s :=
  handleRaycast_film s hit narrow objs mx my rand
    (by rw [hm]; exact Option.some_ne_none m)

/-- Witness for C9 at a concrete film-mode state. -/
theorem C9_film_mode_tap_suppression_witness :
    handleRaycast ⟨false, some 3, -1, 0⟩ none false [] 0 0 0 =
      ⟨false, some 3, -1, 0⟩ :=
  C9_film_mode_tap_suppression ⟨false, some 3, -1, 0⟩ none false [] 0 0 0 3 rfl

/-- Claim C8: on a tap with no qualifying direct hit, on a narrow viewport
and outside film mode, the resolver selects the closest photo within the
0.15 normalized-device threshold when one exists; when none exists and no
photo is currently selected, it selects floor(rand * PHOTO_COUNT), which
lies in [0, PHOTO_COUNT) and equals k exactly when the uniform draw rand
falls in the k-th of PHOTO_COUNT equal-length subintervals of [0, 1). -/
theorem C8_magnetism_fallback (s : AppState) (hit : Option RObj)
    (objs : List RObj) (mx my rand : ℝ)
    (hm : s.activeMonth = none) (hhit : directHitId hit = -1)
    (hrand : 0 ≤ rand ∧ rand < 1) :
    ((∃ o ∈ objs, o.isDeco = false ∧ photoDist mx my o < 3 / 20) →
      ∃ o ∈ objs, o.isDeco = false ∧
        (handleRaycast s hit true objs mx my rand).activePhotoId = o.id ∧
        photoDist mx my o < 3 / 20 ∧
        ∀ q ∈ objs, q.isDeco = false → photoDist mx my o ≤ photoDist mx my q) ∧
    ((∀ o ∈ objs, o.isDeco = false → 3 / 20 ≤ photoDist mx my o) →
      s.activePhotoId = -1 →
      (handleRaycast s hit true objs mx my rand).activePhotoId =
        ⌊rand * (PHOTO_COUNT : ℝ)⌋ ∧
      0 ≤ (handleRaycast s hit true objs mx my rand).activePhotoId ∧
      (handleRaycast s hit true objs mx my rand).activePhotoId < (PHOTO_COUNT : ℤ) ∧
      (∀ k : ℤ, (handleRaycast s hit true objs mx my rand).activePhotoId = k ↔
        ((k : ℝ) / (PHOTO_COUNT : ℝ) ≤ rand ∧
          rand < ((k : ℝ) + 1) / (PHOTO_COUNT : ℝ)))) := by
  have hmn : ¬ s.activeMonth ≠ none := fun h => h hm
  have ht1 : raycastTarget1 hit true objs mx my =
      (objs.foldl (magStep mx my) ((3 / 20 : ℝ), -1)).2 := by
    unfold raycastTarget1
    rw [if_pos ⟨hhit, rfl⟩, hhit]
  constructor
  · intro ⟨o0, ho0, hd0, hdist0⟩
    rcases magFold_spec mx my objs (3 / 20) (-1) with ⟨_, hall⟩ |
      ⟨o, ho, hd, h2, h1, hlt, hall⟩
    · exact absurd hdist0 (not_lt.mpr (hall o0 ho0 hd0))
    · refine ⟨o, ho, hd, ?_, ?_, ?_⟩
      · have ht1o : raycastTarget1 hit true objs mx my = (o.id : ℤ) := by
          rw [ht1, h2]
        have hne : raycastTarget1 hit true objs mx my ≠ -1 := by
          rw [ht1o]; omega
        have ht2 : raycastTarget2 s hit true objs mx my rand = (o.id : ℤ) := by
          unfold raycastTarget2
          rw [if_neg (fun hc => hne hc.1), ht1o]
        unfold handleRaycast
        rw [if_neg hmn, if_pos (by rw [ht2]; omega)]
        rw [ht2]
      · rw [← h1]; exact hlt
      · intro q hq hqd
        rw [← h1]
        exact hall q hq hqd
  · intro hall hsel
    have ht1n : raycastTarget1 hit true objs mx my = -1 := by
      rcases magFold_spec mx my objs (3 / 20) (-1) with ⟨heq, _⟩ |
        ⟨o, ho, hd, h2, h1, hlt, _⟩
      · rw [ht1, heq]
      · rw [h1] at hlt
        exact absurd hlt (not_lt.mpr (hall o ho hd))
    have ht2 : raycastTarget2 s hit true objs mx my rand =
        ⌊rand * (PHOTO_COUNT : ℝ)⌋ := by
      unfold raycastTarget2
      rw [if_pos ⟨ht1n, rfl, hsel⟩]
    have hfl0 : 0 ≤ ⌊rand * (PHOTO_COUNT : ℝ)⌋ := by
      apply Int.floor_nonneg.mpr
      have : (0 : ℝ) ≤ (PHOTO_COUNT : ℝ) := by norm_num [PHOTO_COUNT]
      nlinarith [hrand.1]
    have hfl1 : ⌊rand * (PHOTO_COUNT : ℝ)⌋ < (PHOTO_COUNT : ℤ) := by
      apply Int.floor_lt.mpr
      push_cast
      nlinarith [hrand.2, show (0 : ℝ) < (PHOTO_COUNT : ℝ) by norm_num [PHOTO_COUNT]]
    have hres : (handleRaycast s hit true objs mx my rand).activePhotoId =
        ⌊rand * (PHOTO_COUNT : ℝ)⌋ := by
      unfold handleRaycast
      rw [if_neg hmn, if_pos (by rw [ht2]; omega)]
      rw [ht2]
    refine ⟨hres, by rw [hres]; exact hfl0, by rw [hres]; exact hfl1, ?_⟩
    intro k
    rw [hres]
    have hP : (0 : ℝ) < (PHOTO_COUNT : ℝ) := by norm_num [PHOTO_COUNT]
    rw [Int.floor_eq_iff]
    constructor
    · rintro ⟨hk1, hk2⟩
      constructor
      · rw [div_le_iff₀ hP]
        exact hk1
      · rw [lt_div_iff₀ hP]
        linarith
    · rintro ⟨hk1, hk2⟩
      constructor
      · rw [div_le_iff₀ hP] at hk1
        exact hk1
      · rw [lt_div_iff₀ hP] at hk2
        linarith

/-- Witness for C8: a lone photo projected exactly onto the tap point is
selected by the magnetism fallback. -/
theorem C8_magnetism_fallback_witness :
    (handleRaycast initState none true [⟨5, false, 0, 0⟩] 0 0 (1 / 2)).activePhotoId
      = 5 := by
  obtain ⟨o, ho, hd, hsel, _, _⟩ :=
    (C8_magnetism_fallback initState none [⟨5, false, 0, 0⟩] 0 0 (1 / 2)
      rfl rfl (by norm_num)).1
      ⟨⟨5, false, 0, 0⟩, List.mem_singleton_self _, rfl, by
        show Real.sqrt (((0 : ℝ) - 0) ^ 2 + ((0 : ℝ) - 0) ^ 2) < 3 / 20
        norm_num [Real.sqrt_zero]⟩
  rcases List.mem_singleton.mp ho with rfl
  exact_mod_cast hsel

/-! ## Mode exclusivity invariant lemmas -/

lemma modeInv_init : ModeInv initState := fun hmon => absurd rfl hmon

lemma modeInv_monthEffect_monthBranch (s : AppState) (now : ℕ)
    (hands : List Hand) (h : ModeInv s) :
    ModeInv (monthEffect s (monthBranch s now hands)) := by
  rcases monthBranch_cases s now hands with he | ⟨h1, rest, _, _, _, _, _, hne, he⟩
  · rw [he]
    unfold monthEffect
    rw [if_neg (fun hcond => hcond.1 rfl)]
    exact h
  · rw [he]
    unfold monthEffect
    split
    next => intro _; exact ⟨rfl, rfl⟩
    next hcond =>
      exact absurd ⟨fun hx => hne hx.symm, fun hx => Option.noConfusion hx⟩ hcond

lemma modeInv_gestureStep (s : AppState) (now : ℕ) (label : String)
    (hands : List Hand) (h : ModeInv s) :
    ModeInv (gestureStep s now label hands) := by
  unfold gestureStep
  by_cases hf : label = "Closed_Fist"
  · subst hf
    unfold processGestureFrame
    rw [if_pos rfl]
    by_cases hc : s.formed = false ∨ s.activeMonth ≠ none
    · rw [if_pos hc]
      unfold monthEffect
      split
      next hcond => exact absurd rfl hcond.2
      next =>
        intro hmon
        exact absurd rfl hmon
    · rw [if_neg hc]
      push_neg at hc
      have hmb : monthBranch s now hands = s := by
        rcases monthBranch_cases s now hands with he | ⟨h1, rest, _, hf2, _, _, _, _, _⟩
        · exact he
        · exact absurd hf2 hc.1
      rw [hmb]
      unfold monthEffect
      rw [if_neg (fun hcond => hcond.1 rfl)]
      exact h
  · by_cases hp : label = "Open_Palm"
    · subst hp
      unfold processGestureFrame
      rw [if_neg hf, if_pos rfl]
      by_cases hfo : s.formed = true
      · rw [if_pos hfo]
        have hmb : monthBranch s now hands = s := by
          rcases monthBranch_cases s now hands with he | ⟨h1, rest, _, hf2, _, _, _, _, _⟩
          · exact he
          · rw [hfo] at hf2
            exact Bool.noConfusion hf2
        rw [hmb]
        unfold monthEffect
        rw [if_neg (fun hcond => hcond.1 rfl)]
        intro hmon
        exact ⟨rfl, (h hmon).2⟩
      · rw [if_neg hfo]
        exact modeInv_monthEffect_monthBranch s now hands h
    · rw [processGestureFrame_other s now label hands hf hp]
      exact modeInv_monthEffect_monthBranch s now hands h

lemma modeInv_handleRaycast (s : AppState) (hit : Option RObj) (narrow : Bool)
    (objs : List RObj) (mx my rand : ℝ) (h : ModeInv s) :
    ModeInv (handleRaycast s hit narrow objs mx my rand) := by
  unfold handleRaycast
  split
  · exact h
  next hmn =>
    split
    · intro hmon
      exact absurd (not_not.mp hmn) hmon
    · exact h

lemma modeInv_handleNext (s : AppState) (h : ModeInv s) :
    ModeInv (handleNext s) := by
  unfold handleNext
  split
  · exact h
  next hne =>
    intro hmon
    exact absurd (h hmon).2 hne

lemma modeInv_handlePrev (s : AppState) (h : ModeInv s) :
    ModeInv (handlePrev s) := by
  unfold handlePrev
  split
  · exact h
  next hne =>
    intro hmon
    exact absurd (h hmon).2 hne

lemma modeInv_handleClose (s : AppState) (h : ModeInv s) :
    ModeInv (handleClose s) := by
  intro hmon
  exact ⟨(h hmon).1, rfl⟩

lemma modeInv_camToggleOff (s : AppState) (_h : ModeInv s) :
    ModeInv (camToggleOff s) := by
  intro hmon
  exact absurd rfl hmon

lemma modeInv_step (s s2 : AppState) (h : ModeInv s) (hs : Step s s2) :
    ModeInv s2 := by
  cases hs with
  | gesture now label hands => exact modeInv_gestureStep s now label hands h
  | raycast hit narrow objs mx my rand =>
      exact modeInv_handleRaycast s hit narrow objs mx my rand h
  | next => exact modeInv_handleNext s h
  | prev => exact modeInv_handlePrev s h
  | close => exact modeInv_handleClose s h
  | camOff => exact modeInv_camToggleOff s h

/-- Claim C7: in every mode state reachable through handler runs, an active
category forces formed = false and no active photo; and any gesture step
that changes the active month to a set value forces formed = false and
clears the selection. -/
theorem C7_mode_exclusivity :
    (∀ s, Reachable s → ModeInv s) ∧
    (∀ (s : AppState) (now : ℕ) (label : String) (hands : List Hand),
      (gestureStep s now label hands).activeMonth ≠ none →
      (gestureStep s now label hands).activeMonth ≠ s.activeMonth →
      (gestureStep s now label hands).formed = false ∧
      (gestureStep s now label hands).activePhotoId = -1) := by
  constructor
  · intro s h
    unfold Reachable at h
    induction h with
    | refl => exact modeInv_init
    | tail hrt hstep ih => exact modeInv_step _ _ ih hstep
  · intro s now label hands hne hch
    unfold gestureStep at hne hch ⊢
    rw [monthEffect_activeMonth] at hne hch
    unfold monthEffect
    rw [if_pos ⟨hch, hne⟩]
    exact ⟨rfl, rfl⟩

/-- Witness for C7: the initial state satisfies the invariant, and the
concrete month-entering gesture step forces formed false and clears the
selection. -/
theorem C7_mode_exclusivity_witness :
    ModeInv initState ∧
    ((gestureStep initState 2001 "Pointing_Up" [handThree]).formed = false ∧
     (gestureStep initState 2001 "Pointing_Up" [handThree]).activePhotoId = -1) :=
  ⟨C7_mode_exclusivity.1 initState Relation.ReflTransGen.refl,
   C7_mode_exclusivity.2 initState 2001 "Pointing_Up" [handThree]
     (by decide) (by decide)⟩

end MemoryWall
